import Mathlib

/-
Verification of the asciidoc-like parser in src/main.rs (a Rust program built
on the `combine` parser-combinator library).

The embedding models `combine`'s core semantics faithfully:
an input is a list of characters; a parser returns either success or failure,
each tagged with a `consumed` flag.  Ordered choice (`or` / `choice`) only
falls through to the next alternative when the previous one failed WITHOUT
consuming input; `attempt` converts a consumed failure into an empty one.
Sequencing (`and`) propagates the flag with boolean or.  `many`/`many1`
stop on an empty failure of the element parser and abort on a consumed one.
Recursion in the inline grammar (tied with the `parser!` macro in Rust) is
modelled with a fuel parameter; every recursive call in the grammar consumes
at least one character first, so fuel `length + 1` computes the fixpoint.
Rust `String` is modelled by Lean `String`, `HashMap<String,String>` by an
association list with insert-overwrite (`hashInsert`), `Result`/parse errors
by `Option`/the `err` constructor, and `u32` casts by `% 2^32`.
-/

namespace Asciidoc

/-- Result of running a parser: success or failure, each carrying the
`combine` consumed flag. -/
inductive PR (α : Type) where
  | ok (consumed : Bool) (val : α) (rest : List Char)
  | err (consumed : Bool)

def Parser (α : Type) : Type := List Char → PR α

variable {α β γ : Type}

/-- combine `satisfy`: consumes one matching character. -/
def satisfy (p : Char → Bool) : Parser Char := fun i =>
  match i with
  | [] => .err false
  | c :: rest => if p c then .ok true c rest else .err false

/-- combine `token(c)`. -/
def token (c : Char) : Parser Char := satisfy (fun x => x == c)

def Parser.map (p : Parser α) (f : α → β) : Parser β := fun i =>
  match p i with
  | .ok c a rest => .ok c (f a) rest
  | .err c => .err c

/-- combine `.and(..)`: sequence, returning the pair. -/
def Parser.andThen (p : Parser α) (q : Parser β) : Parser (α × β) := fun i =>
  match p i with
  | .err c => .err c
  | .ok c1 a rest =>
    match q rest with
    | .err c2 => .err (c1 || c2)
    | .ok c2 b rest2 => .ok (c1 || c2) (a, b) rest2

/-- combine `.or(..)` / `choice`: try `q` only if `p` failed without
consuming input. -/
def Parser.orElse (p q : Parser α) : Parser α := fun i =>
  match p i with
  | .ok c a rest => .ok c a rest
  | .err true => .err true
  | .err false => q i

/-- combine `attempt`: turn a consumed failure into an empty failure. -/
def attempt (p : Parser α) : Parser α := fun i =>
  match p i with
  | .err _ => .err false
  | r => r

/-- Iteration core of combine `many`.  The fuel is only a totality device:
every element parser used with `many` in this grammar consumes at least one
character on success, so fuel `input.length + 1` never runs out. -/
def manyAux (p : Parser α) : Nat → Bool → List α → List Char → PR (List α)
  | 0, consumed, _, _ => .err consumed
  | fuel + 1, consumed, acc, i =>
    match p i with
    | .err true => .err true
    | .err false => .ok consumed acc.reverse i
    | .ok c a rest => manyAux p fuel (consumed || c) (a :: acc) rest

/-- combine `many`: zero or more. -/
def many (p : Parser α) : Parser (List α) := fun i =>
  manyAux p (i.length + 1) false [] i

/-- combine `many1`: one or more. -/
def many1 (p : Parser α) : Parser (List α) :=
  (p.andThen (many p)).map (fun (a, rest) => a :: rest)

/-- combine `skip_many`. -/
def skipMany (p : Parser α) : Parser Unit := (many p).map (fun _ => ())

/-- combine `not_followed_by`: succeeds without consuming iff `p` fails. -/
def notFollowedBy (p : Parser α) : Parser Unit := fun i =>
  match p i with
  | .ok _ _ _ => .err false
  | .err _ => .ok false () i

/-- combine `between(open, close, p)`: open, then p, then close; yields p. -/
def between (o : Parser α) (c : Parser β) (p : Parser γ) : Parser γ :=
  ((o.andThen p).andThen c).map (fun ((_, x), _) => x)

/-- Matching core of combine `string`/`tokens`: fails with the consumed flag
set as soon as at least one character matched. -/
def pstringAux (orig : List Char) : List Char → Bool → List Char → PR (List Char)
  | [], consumed, i => .ok consumed orig i
  | _ :: _, consumed, [] => .err consumed
  | e :: es, consumed, c :: rest =>
    if c == e then pstringAux orig es true rest else .err consumed

/-- combine `string(s)`. -/
def pstring (s : List Char) : Parser (List Char) := fun i => pstringAux s s false i

/-- Rust `char::is_whitespace` (the Unicode White_Space property), used by
combine's `space()`/`spaces()`. -/
def rustIsWhitespace (c : Char) : Bool :=
  let n := c.toNat
  n == 0x09 || n == 0x0A || n == 0x0B || n == 0x0C || n == 0x0D || n == 0x20 ||
  n == 0x85 || n == 0xA0 || n == 0x1680 ||
  (Nat.ble 0x2000 n && Nat.ble n 0x200A) ||
  n == 0x2028 || n == 0x2029 || n == 0x202F || n == 0x205F || n == 0x3000

/-- combine `newline()`. -/
def newline : Parser Char := token '\n'

/-- combine `space()`. -/
def space : Parser Char := satisfy rustIsWhitespace

/-- combine `spaces()` = `skip_many(space())`. -/
def spaces : Parser Unit := skipMany space

/-- The backquote character (written via its code point). -/
def bq : Char := Char.ofNat 96

/- ===================== AST model (main.rs lines 7-156) ===================== -/

inductive HeadingLevel where
  | Title
  | Level1
  | Level2
  | Level3
  | Level4

inductive ListLevel where
  | Level1
  | Level2
  | Level3
  | Level4
  | Level5

inductive FootnoteType where
  | Note
  | Tip
  | Important
  | Warning
  | Caution

inductive VideoProvider where
  | Youtube

structure TableColumn where
  name : String

/-- Rust `Attributes`; `HashMap<String, String>` is modelled as an
association list built with insert-overwrite (`hashInsert`). -/
inductive Attributes where
  | Position (attrs : List String)
  | Named (attrs : List (String × String))

/-- `HashMap::insert`: overwrite the value if the key exists, otherwise add
the binding. -/
def hashInsert (m : List (String × String)) (k v : String) : List (String × String) :=
  if m.any (fun p => p.1 == k) then
    m.map (fun p => if p.1 == k then (k, v) else p)
  else
    m ++ [(k, v)]

inductive Inline where
  | Value (s : String)
  | HardBreak
  | SoftBreak
  | Literal (children : Inline)
  | Footnote (kind : FootnoteType) (children : Inline)
  | Lead (children : Inline)
  | Bold (children : Inline)
  | Italic (children : Inline)
  | Monospace (children : Inline)
  | Marker (children : Inline)
  | Macro (attributes : Attributes) (kind : String) (id : String)
  | InlineCode (children : Inline)

inductive ListItem where
  | Normal (children : List Inline) (level : Nat)
  | Check (children : List Inline) (level : Nat) (checked : Bool)

mutual
inductive Block where
  | Paragraph (children : List Inline)
  | Heading (level : HeadingLevel) (children : List Inline) (id : Option String)
  | HorizontalRuledLine
  | NextPage
  | UnorderdList (children : List ListItem)
  | OrderdList (children : List ListItem)
  | Label (children : List Inline) (key : List Inline)
  | Qanda (question : List Inline) (answer : List Inline)
  | CodeBlock (children : List Inline) (title : Option String) (file_type : Option String)
  | Block (children : List Inline) (title : Option (List Inline))
  | Table (columns : List TableColumn) (rows : List TableRow) (title : Option String)
  | BlankBlock

inductive TableRow where
  | mk (children : Block)
end

/- ===================== Grammar (main.rs lines 158-534) ===================== -/

/-- Characters excluded from a text run (`value`, main.rs 318-328):
newline, `*`, `_`, backquote, `#`. -/
def valueChar (c : Char) : Bool :=
  !(c == '\n' || c == '*' || c == '_' || c == bq || c == '#')

/-- `value` (main.rs 318-328): maximal run of ordinary characters. -/
def value : Parser Inline :=
  (many1 (satisfy valueChar)).map (fun cs => Inline.Value ⟨cs⟩)

/-- `line_break` (main.rs 233-244). -/
def line_break : Parser Inline :=
  ((newline.andThen (notFollowedBy newline)).map (fun _ => Inline.SoftBreak)).orElse
    ((space.andThen (pstring ['+', '\n'])).map (fun _ => Inline.HardBreak))

/-- `bold` (main.rs 246-257), parameterised by the recursive `inline`. -/
def boldF (rec : Parser Inline) : Parser Inline :=
  ((skipMany (token ' ')).andThen (between (token '*') (token '*') rec)).map
    (fun (_, children) => Inline.Bold children)

/-- `monospace` (main.rs 259-270). -/
def monospaceF (rec : Parser Inline) : Parser Inline :=
  ((skipMany (token ' ')).andThen (between (token bq) (token bq) rec)).map
    (fun (_, children) => Inline.Monospace children)

/-- `italic` (main.rs 272-283). -/
def italicF (rec : Parser Inline) : Parser Inline :=
  ((skipMany (token ' ')).andThen (between (token '_') (token '_') rec)).map
    (fun (_, children) => Inline.Italic children)

/-- `marker` (main.rs 285-296). -/
def markerF (rec : Parser Inline) : Parser Inline :=
  ((skipMany (token ' ')).andThen (between (token '#') (token '#') rec)).map
    (fun (_, children) => Inline.Marker children)

/-- `inline_code` (main.rs 298-316): three backquotes, inline, three
backquotes. -/
def inlineCodeF (rec : Parser Inline) : Parser Inline :=
  (((((((token bq).andThen (token bq)).andThen (token bq)).andThen rec).andThen
      (token bq)).andThen (token bq)).andThen (token bq)).map
    (fun ((((((_, _), _), children), _), _), _) => Inline.InlineCode children)

/-- `inline_` (main.rs 198-213): the ordered choice of inline alternatives,
wrapped in `attempt`, with the single-character fallback.  The `parser!`
recursion of the Rust source is modelled with fuel; each recursive call
sits behind at least one consumed delimiter character. -/
def inlineF : Nat → Parser Inline
  | 0 => fun _ => .err false
  | n + 1 =>
    (attempt
      (value.orElse
        ((boldF (inlineF n)).orElse
          ((italicF (inlineF n)).orElse
            (((attempt (inlineCodeF (inlineF n))).orElse (monospaceF (inlineF n))).orElse
              ((markerF (inlineF n)).orElse line_break)))))).orElse
      ((satisfy (fun c => !(c == '\n'))).map (fun c => Inline.Value ⟨[c]⟩))

/-- `inline()` (main.rs 190-196): the tied recursive knot. -/
def inline : Parser Inline := fun i => inlineF (i.length + 1) i

def bold : Parser Inline := boldF inline

def monospace : Parser Inline := monospaceF inline

def italic : Parser Inline := italicF inline

def marker : Parser Inline := markerF inline

def inline_code : Parser Inline := inlineCodeF inline

/-- `list_item_inline_` (main.rs 223-231): restricted inline grammar used
inside list items (text, bold, italic, monospace, fallback). -/
def list_item_inline_ : Parser Inline :=
  (attempt (value.orElse (bold.orElse (italic.orElse monospace)))).orElse
    ((satisfy (fun c => !(c == '\n'))).map (fun c => Inline.Value ⟨[c]⟩))

/-- The level map inside `heading_block` (main.rs 345-354).  Lengths 0 and
more than 5 hit Rust's `unreachable!()`: the surrounding code makes them
impossible (`many1` yields at least one `=`, the `> 5` branch is taken
first), so the default value of this total function is never observed. -/
def levelOfLen : Nat → HeadingLevel
  | 1 => .Title
  | 2 => .Level1
  | 3 => .Level2
  | 4 => .Level3
  | 5 => .Level4
  | _ => .Title

/-- `heading_block` (main.rs 330-361). -/
def heading_block : Parser Block :=
  (((many1 (token '=')).andThen (many1 (token ' '))).andThen inline).map
    (fun ((heading, sps), children) =>
      if 5 < heading.length then
        Block.Paragraph [Inline.Value ⟨heading ++ sps⟩, children]
      else
        Block.Heading (levelOfLen heading.length) [children] none)

/-- `paragraph_block` (main.rs 363-370). -/
def paragraph_block : Parser Block :=
  (many1 (attempt inline)).map (fun children => Block.Paragraph children)

/-- `blank_block` (main.rs 372-378): `count_min_max(2, 2, newline())`,
i.e. exactly two newlines in sequence. -/
def blank_block : Parser Block :=
  (newline.andThen newline).map (fun _ => Block.BlankBlock)

/-- `horizontal_ruled_line_block` (main.rs 380-386). -/
def horizontal_ruled_line_block : Parser Block :=
  (pstring ['<', '<', '<']).map (fun _ => Block.HorizontalRuledLine)

/-- `count_min_max(0, 1, p)` as used by the list blocks. -/
def upToOne (p : Parser α) : Parser (List α) := fun i =>
  match p i with
  | .ok c a rest => .ok c [a] rest
  | .err true => .err true
  | .err false => .ok false [] i

/-- `normal_list_item` (main.rs 425-437); the `as u32` cast is `% 2^32`. -/
def normal_list_item (list_char : Char) : Parser ListItem :=
  (((many1 (token list_char)).andThen spaces).andThen
      (many1 (attempt list_item_inline_))).map
    (fun ((list_tokens, _), inl) =>
      ListItem.Normal inl (list_tokens.length % 4294967296))

/-- `checked_list_item` (main.rs 439-460). -/
def checked_list_item (list_char : Char) : Parser ListItem :=
  (((((many1 (token list_char)).andThen spaces).andThen
        (between (token '[') (token ']')
          (satisfy (fun c => c == '*' || c == 'x' || c == ' ')))).andThen
      spaces).andThen (many1 (attempt list_item_inline_))).map
    (fun ((((list_tokens, _), check_box_char), _), inl) =>
      ListItem.Check inl (list_tokens.length % 4294967296) (check_box_char != ' '))

/-- `list_item` (main.rs 414-423): Check is attempted before Normal. -/
def list_item (list_char : Char) : Parser ListItem :=
  (attempt (checked_list_item list_char)).orElse (normal_list_item list_char)

/-- `unordered_list_block` (main.rs 388-399). -/
def unordered_list_block : Parser Block :=
  (many1 (((list_item '*').andThen (upToOne newline)).map (fun (li, _) => li))).map
    (fun items => Block.UnorderdList items)

/-- `ordered_list_block` (main.rs 401-412). -/
def ordered_list_block : Parser Block :=
  (many1 (((list_item '.').andThen (upToOne newline)).map (fun (li, _) => li))).map
    (fun items => Block.OrderdList items)

/-- `block` (main.rs 175-188): the top-level ordered choice.  None of the
alternatives is wrapped in `attempt`, so an alternative that fails after
consuming input aborts the whole choice. -/
def block : Parser Block :=
  heading_block.orElse
    (horizontal_ruled_line_block.orElse
      (ordered_list_block.orElse
        (unordered_list_block.orElse
          (paragraph_block.orElse blank_block))))

/-- `document` (main.rs 167-173). -/
def document : Parser (List Block) := many block

/-- `s.trim_start_matches(&['\n', ' '])` in `parse` (main.rs 161-162). -/
def trimStart (s : List Char) : List Char :=
  s.dropWhile (fun c => c == '\n' || c == ' ')

/-- `parse` (main.rs 158-165): trim leading newlines/spaces, run the
document parser, keep the produced blocks (the unparsed tail is discarded
by the Rust code), and map a parse error to `none`. -/
def parse (s : String) : Option (List Block) :=
  match document (trimStart s.data) with
  | .ok _ blocks _ => some blocks
  | .err _ => none

/-- The character class of a named-attribute key/value (main.rs 467). -/
def na_char (c : Char) : Bool :=
  c != '=' && c != ']' && c != ',' && c != '\n'

/-- The `value` closure of `named_atteributes` (main.rs 467): note `many`,
not `many1` - keys and values may be empty. -/
def na_value : Parser (List Char) := many (satisfy na_char)

/-- The `expression` closure of `named_atteributes` (main.rs 468-472),
yielding the key and value. -/
def na_expression : Parser (List Char × List Char) :=
  ((na_value.andThen (token '=')).andThen na_value).map
    (fun ((k, _), v) => (k, v))

/-- The `one_expression` closure (main.rs 474-482). -/
def one_expression : Parser Attributes :=
  (((token '[').andThen na_expression).andThen (token ']')).map
    (fun ((_, (k, v)), _) => Attributes.Named (hashInsert [] ⟨k⟩ ⟨v⟩))

/-- The `expression_with_delimiter` closure (main.rs 484). -/
def expression_with_delimiter : Parser (List Char × List Char) :=
  ((na_expression.andThen (token ',')).andThen spaces).map
    (fun ((e, _), _) => e)

/-- The `many_expressions` closure (main.rs 485-501): every pair is
inserted in source order, the trailing expression last. -/
def many_expressions : Parser Attributes :=
  ((((token '[').andThen (many1 (attempt expression_with_delimiter))).andThen
      na_expression).andThen (token ']')).map
    (fun (((_, exprs), last), _) =>
      Attributes.Named
        (hashInsert
          (exprs.foldl (fun m e => hashInsert m ⟨e.1⟩ ⟨e.2⟩) [])
          ⟨last.1⟩ ⟨last.2⟩))

/-- `named_atteributes` (main.rs 462-504), keeping the source's spelling. -/
def named_atteributes : Parser Attributes :=
  (attempt many_expressions).orElse (attempt one_expression)

/-- The `attribute` closure of `position_attributes` (main.rs 511). -/
def pa_attr : Parser (List Char) :=
  many1 (satisfy (fun c => c != ']' && c != '\n' && c != ','))

/-- The `single_attribute` closure (main.rs 513). -/
def single_attribute : Parser Attributes :=
  (((token '[').andThen pa_attr).andThen (token ']')).map
    (fun ((_, a), _) => Attributes.Position [⟨a⟩])

/-- The `attribute_with_delimiter` closure (main.rs 515). -/
def attribute_with_delimiter : Parser (List Char) :=
  (pa_attr.andThen (token ',')).map (fun (a, _) => a)

/-- The `multi_attribute` closure (main.rs 516-531). -/
def multi_attribute : Parser Attributes :=
  ((((token '[').andThen (many (attempt attribute_with_delimiter))).andThen
      pa_attr).andThen (token ']')).map
    (fun (((_, attrs), a), _) =>
      Attributes.Position (attrs.map (fun x => (⟨x⟩ : String)) ++ [(⟨a⟩ : String)]))

/-- `position_attributes` (main.rs 506-534): multi is attempted, single is
not wrapped in `attempt`. -/
def position_attributes : Parser Attributes :=
  (attempt multi_attribute).orElse single_attribute

/- ===================== Helper lemmas ===================== -/

/-- Whether the head of the input (if any) fails the predicate; used to
state where a maximal-munch run stops. -/
def headNot (p : Char → Bool) : List Char → Bool
  | [] => true
  | c :: _ => !(p c)

theorem map_ok {p : Parser α} {f : α → β} {i : List Char} {c : Bool} {a : α}
    {r : List Char} (h : p i = .ok c a r) : p.map f i = .ok c (f a) r := by
  simp [Parser.map, h]

theorem andThen_ok {p : Parser α} {q : Parser β} {i r1 r2 : List Char}
    {c1 c2 : Bool} {a : α} {b : β} (h1 : p i = .ok c1 a r1)
    (h2 : q r1 = .ok c2 b r2) : p.andThen q i = .ok (c1 || c2) (a, b) r2 := by
  simp [Parser.andThen, h1, h2]

theorem andThen_err2 {p : Parser α} {q : Parser β} {i r : List Char}
    {c1 c2 : Bool} {a : α} (h1 : p i = .ok c1 a r) (h2 : q r = .err c2) :
    p.andThen q i = .err (c1 || c2) := by
  simp [Parser.andThen, h1, h2]

theorem orElse_ok {p q : Parser α} {i r : List Char} {c : Bool} {a : α}
    (h : p i = .ok c a r) : p.orElse q i = .ok c a r := by
  simp [Parser.orElse, h]

theorem orElse_rec {p q : Parser α} {i : List Char}
    (h : p i = .err false) : p.orElse q i = q i := by
  simp [Parser.orElse, h]

theorem attempt_ok {p : Parser α} {i r : List Char} {c : Bool} {a : α}
    (h : p i = .ok c a r) : attempt p i = .ok c a r := by
  simp [attempt, h]

theorem attempt_err {p : Parser α} {i : List Char} {c : Bool}
    (h : p i = .err c) : attempt p i = .err false := by
  simp [attempt, h]

/-- Core run lemma: `manyAux` over `satisfy p` consumes exactly the maximal
satisfying prefix. -/
theorem manyAux_satisfy_run (p : Char → Bool) (s : List Char) :
    ∀ (rest : List Char) (fuel : Nat) (consumed : Bool) (acc : List Char),
      (∀ c ∈ s, p c = true) → headNot p rest = true → s.length < fuel →
      manyAux (satisfy p) fuel consumed acc (s ++ rest) =
        .ok (consumed || !s.isEmpty) (acc.reverse ++ s) rest := by
  induction s with
  | nil =>
    intro rest fuel consumed acc _ hr hf
    match fuel, hf with
    | fuel + 1, _ =>
      cases rest with
      | nil => simp [manyAux, satisfy]
      | cons c r =>
        have hc : p c = false := by simpa [headNot] using hr
        simp [manyAux, satisfy, hc]
  | cons a s ih =>
    intro rest fuel consumed acc hs hr hf
    match fuel, hf with
    | fuel + 1, hf =>
      have ha : p a = true := hs a (List.mem_cons_self a s)
      have step : manyAux (satisfy p) (fuel + 1) consumed acc ((a :: s) ++ rest) =
          manyAux (satisfy p) fuel (consumed || true) (a :: acc) (s ++ rest) := by
        simp [manyAux, satisfy, ha]
      rw [step, ih rest fuel (consumed || true) (a :: acc)
        (fun c hc => hs c (List.mem_cons_of_mem a hc)) hr (by simpa using hf)]
      simp

theorem many_satisfy_run (p : Char → Bool) (s rest : List Char)
    (hs : ∀ c ∈ s, p c = true) (hr : headNot p rest = true) :
    many (satisfy p) (s ++ rest) = .ok (!s.isEmpty) s rest := by
  show manyAux (satisfy p) ((s ++ rest).length + 1) false [] (s ++ rest) = _
  have := manyAux_satisfy_run p s rest ((s ++ rest).length + 1) false [] hs hr
    (by simp; omega)
  simpa using this

theorem many1_satisfy_run (p : Char → Bool) (s rest : List Char)
    (hne : s ≠ []) (hs : ∀ c ∈ s, p c = true) (hr : headNot p rest = true) :
    many1 (satisfy p) (s ++ rest) = .ok true s rest := by
  cases s with
  | nil => exact absurd rfl hne
  | cons a s =>
    have ha : p a = true := hs a (List.mem_cons_self a s)
    have hm := many_satisfy_run p s rest
      (fun c hc => hs c (List.mem_cons_of_mem a hc)) hr
    simp [many1, Parser.andThen, Parser.map, satisfy, ha, hm]

theorem many1_token_run (c : Char) (n : Nat) (rest : List Char) (hn : 1 ≤ n)
    (hr : headNot (fun x => x == c) rest = true) :
    many1 (token c) (List.replicate n c ++ rest) =
      .ok true (List.replicate n c) rest := by
  have hne : List.replicate n c ≠ [] := by
    cases n with
    | zero => omega
    | succ m => simp
  have hs : ∀ x ∈ List.replicate n c, (x == c) = true := by
    intro x hx
    rw [List.eq_of_mem_replicate hx]
    simp
  simpa [token] using many1_satisfy_run (fun x => x == c) (List.replicate n c)
    rest hne hs hr

/-- A run of `spaces` over no whitespace consumes nothing. -/
theorem spaces_none {i : List Char} (hr : headNot rustIsWhitespace i = true) :
    spaces i = .ok false () i := by
  have h := many_satisfy_run rustIsWhitespace [] i (by simp) hr
  simp only [List.nil_append, List.isEmpty_nil, Bool.not_true] at h
  simp [spaces, skipMany, space, Parser.map, h]

/-- A run of `spaces` over exactly one space character. -/
theorem spaces_one {i : List Char} (hr : headNot rustIsWhitespace i = true) :
    spaces (' ' :: i) = .ok true () i := by
  have h := many_satisfy_run rustIsWhitespace [' '] i
    (by intro c hc; simp at hc; subst hc; rfl) hr
  simp only [List.singleton_append] at h
  simp [spaces, skipMany, space, Parser.map, h]

/-- A maximal text run becomes one `Value` node (main.rs 318-328). -/
theorem value_run (t rest : List Char) (hne : t ≠ [])
    (ht : ∀ c ∈ t, valueChar c = true) (hr : headNot valueChar rest = true) :
    value (t ++ rest) = .ok true (Inline.Value ⟨t⟩) rest := by
  have := many1_satisfy_run valueChar t rest hne ht hr
  simp [value, Parser.map, this]

/-- When `value` succeeds, it is the first alternative of the inline
choice, so `inline` returns its result. -/
theorem inline_of_value {i r : List Char} {b : Bool} {v : Inline}
    (h : value i = .ok b v r) : inline i = .ok b v r := by
  show inlineF (i.length + 1) i = .ok b v r
  simp [inlineF, Parser.orElse, attempt, h]

/-- Same fact for the restricted list-item inline grammar. -/
theorem list_item_inline_of_value {i r : List Char} {b : Bool} {v : Inline}
    (h : value i = .ok b v r) : list_item_inline_ i = .ok b v r := by
  simp [list_item_inline_, Parser.orElse, attempt, h]

theorem many_of_err {p : Parser α} {i : List Char}
    (h : p i = .err false) : many p i = .ok false [] i := by
  show manyAux p (i.length + 1) false [] i = .ok false [] i
  simp [manyAux, h]

/-- When the element parser succeeds once, consuming everything, and fails
emptily on the empty rest, `many` yields the singleton. -/
theorem many_ok_single {p : Parser α} {i : List Char} {a : α} (hne : i ≠ [])
    (h1 : p i = .ok true a []) (h2 : p [] = .err false) :
    many p i = .ok true [a] [] := by
  cases i with
  | nil => exact absurd rfl hne
  | cons c cs =>
    show manyAux p ((c :: cs).length + 1) false [] (c :: cs) = _
    simp only [List.length_cons]
    rw [show cs.length + 1 + 1 = (cs.length + 1) + 1 from rfl]
    simp [manyAux, h1, h2]

theorem many1_of_single {p : Parser α} {i : List Char} {a : α}
    (h1 : p i = .ok true a []) (h2 : p [] = .err false) :
    many1 p i = .ok true [a] [] := by
  have := many_of_err (p := p) h2
  simp [many1, Parser.andThen, Parser.map, h1, this]

/-- `trim_start_matches` leaves input starting with a non-trimmed
character unchanged. -/
theorem trimStart_eq {i : List Char}
    (h : headNot (fun c => c == '\n' || c == ' ') i = true) :
    trimStart i = i := by
  cases i with
  | nil => rfl
  | cons c cs =>
    have : (c == '\n' || c == ' ') = false := by simpa [headNot] using h
    simp [trimStart, List.dropWhile, this]

/-- Behaviour of `heading_block` (main.rs 330-361) on a marker run of
length `n`, a space run of length `k`, and content parsed by `inline`. -/
theorem heading_run (n k : Nat) (rest : List Char) (b : Bool) (c : Inline)
    (rest' : List Char) (hn : 1 ≤ n) (hk : 1 ≤ k)
    (hr : headNot (fun x => x == ' ') rest = true)
    (hin : inline rest = .ok b c rest') :
    heading_block (List.replicate n '=' ++ List.replicate k ' ' ++ rest) =
      .ok true
        (if 5 < n then
          Block.Paragraph [Inline.Value ⟨List.replicate n '=' ++ List.replicate k ' '⟩, c]
        else
          Block.Heading (levelOfLen n) [c] none)
        rest' := by
  have hE : many1 (token '=') (List.replicate n '=' ++ (List.replicate k ' ' ++ rest)) =
      .ok true (List.replicate n '=') (List.replicate k ' ' ++ rest) := by
    apply many1_token_run '=' n _ hn
    match k, hk with
    | k + 1, _ => simp [List.replicate_succ, headNot]
  have hS : many1 (token ' ') (List.replicate k ' ' ++ rest) =
      .ok true (List.replicate k ' ') rest :=
    many1_token_run ' ' k rest hk hr
  simp [heading_block, Parser.map, Parser.andThen, hE, hS, hin]

/- ===================== Claims ===================== -/

/-- C1 counterexample: the claim "for every non-empty input string, parse
succeeds" is false at the non-empty input `"=a"`: `heading_block` consumes
the `=`, then fails at the missing space run, and since the alternatives of
`block` are not wrapped in `attempt`, the consumed failure aborts the whole
parse instead of falling through to the Paragraph catch-all. -/
theorem C1_counterexample : ("=a" : String) ≠ "" ∧ parse "=a" = none :=
  ⟨by decide, rfl⟩

/-- C1 (amended): parse is not total on non-empty inputs.  A block
alternative that fails after consuming input aborts the parse: `"=a"`
(heading marker not followed by a space) and `"<"` (a strict prefix of the
`<<<` literal) both fail, while an input on which every failing
alternative fails without consuming, such as `"a"`, is caught by the
paragraph catch-all. -/
theorem C1_amended :
    parse "=a" = none ∧ parse "<" = none ∧
    parse "a" = some [Block.Paragraph [Inline.Value "a"]] :=
  ⟨rfl, rfl, rfl⟩

/-- C2 counterexample: `parse "\n\n"` does not return one `BlankBlock`;
the leading-trim in `parse` removes both newlines first. -/
theorem C2_counterexample : parse "\n\n" ≠ some [Block.BlankBlock] := by
  intro h
  rw [show parse "\n\n" = some [] from rfl] at h
  simp at h

/-- C2 (amended): `parse` first strips every leading newline/space
character, so the input `"\n\n"` parses to the empty document; the
`blank_block` production itself does map `"\n\n"` to a `BlankBlock`, and a
blank pair occurring after other content does surface as its own block, as
in `"a\n\nb"`. -/
theorem C2_amended :
    parse "\n\n" = some [] ∧
    blank_block "\n\n".toList = .ok true Block.BlankBlock [] ∧
    parse "a\n\nb" = some [Block.Paragraph [Inline.Value "a"], Block.BlankBlock,
      Block.Paragraph [Inline.Value "b"]] :=
  ⟨rfl, rfl, rfl⟩

/-- C3 counterexample: `parse "a +\nb"` does not contain a `HardBreak`: the
text-run alternative `value` is ordered before `line_break` and consumes
the space and `+` as ordinary characters. -/
theorem C3_counterexample :
    parse "a +\nb" ≠
      some [Block.Paragraph [Inline.Value "a", Inline.HardBreak, Inline.Value "b"]] := by
  intro h
  rw [show parse "a +\nb" = some [Block.Paragraph [Inline.Value "a +",
    Inline.SoftBreak, Inline.Value "b"]] from rfl] at h
  simp at h

/-- C3 (amended): `"a +\nb"` parses to a single Paragraph with children
`[Text("a +"), SoftBreak, Text("b")]`; the `space + "+\n"` HardBreak form
exists in `line_break` itself (which maps `" +\n"` to `HardBreak`), but
inside the inline choice the earlier text-run alternative always consumes
the space and `+` first, so the full parse yields a SoftBreak. -/
theorem C3_amended :
    parse "a +\nb" = some [Block.Paragraph [Inline.Value "a +",
      Inline.SoftBreak, Inline.Value "b"]] ∧
    line_break " +\n".toList = .ok true Inline.HardBreak [] :=
  ⟨rfl, rfl⟩

/-- C4: a marker run of more than five `=` followed by a space run and
inline content does not fail and does not produce a Heading: it yields a
Paragraph whose first child is the literal marker run concatenated with
the consumed spaces, followed by the parsed content; in particular
`"====== Heading"` parses to that exact paragraph. -/
theorem C4_oversized_heading :
    (∀ (n k : Nat) (rest : List Char) (b : Bool) (c : Inline) (rest' : List Char),
      5 < n → 1 ≤ k → headNot (fun x => x == ' ') rest = true →
      inline rest = .ok b c rest' →
      heading_block (List.replicate n '=' ++ List.replicate k ' ' ++ rest) =
        .ok true
          (Block.Paragraph
            [Inline.Value ⟨List.replicate n '=' ++ List.replicate k ' '⟩, c])
          rest') ∧
    parse "====== Heading" =
      some [Block.Paragraph [Inline.Value "====== ", Inline.Value "Heading"]] := by
  constructor
  · intro n k rest b c rest' hn hk hr hin
    have h := heading_run n k rest b c rest' (by omega) hk hr hin
    rw [h, if_pos hn]
  · rfl

/-- C4 witness at `"====== Heading"`. -/
theorem C4_witness :
    heading_block "====== Heading".toList =
      .ok true (Block.Paragraph [Inline.Value "====== ", Inline.Value "Heading"]) [] :=
  C4_oversized_heading.1 6 1 "Heading".toList true (Inline.Value "Heading") []
    (by decide) (by decide) (by decide) (by rfl)

/-- C5: for a marker run of length `L` between 1 and 5, a space run of
length `k` at least 1, and non-empty text with no special character and
not starting with a space, the input parses to a Heading whose level is
`levelOfLen L`, whose children are the single text node, and whose id is
`none`; `levelOfLen` sends 1 to Title, 2 to Level1, 3 to Level2, 4 to
Level3 and 5 to Level4. -/
theorem C5_heading_levels :
    (∀ (L k : Nat) (t : List Char),
      1 ≤ L → L ≤ 5 → 1 ≤ k → t ≠ [] →
      (∀ c ∈ t, valueChar c = true) →
      headNot (fun x => x == ' ') t = true →
      parse ⟨List.replicate L '=' ++ List.replicate k ' ' ++ t⟩ =
        some [Block.Heading (levelOfLen L) [Inline.Value ⟨t⟩] none]) ∧
    levelOfLen 1 = .Title ∧ levelOfLen 2 = .Level1 ∧ levelOfLen 3 = .Level2 ∧
    levelOfLen 4 = .Level3 ∧ levelOfLen 5 = .Level4 := by
  refine ⟨?_, rfl, rfl, rfl, rfl, rfl⟩
  intro L k t hL1 hL5 hk hne ht hh
  have hval : value t = .ok true (Inline.Value ⟨t⟩) [] := by
    have := value_run t [] hne ht (by rfl)
    simpa using this
  have hin : inline t = .ok true (Inline.Value ⟨t⟩) [] := inline_of_value hval
  have hhead := heading_run L k t true (Inline.Value ⟨t⟩) [] hL1 hk hh hin
  rw [if_neg (by omega)] at hhead
  have hblock : block (List.replicate L '=' ++ List.replicate k ' ' ++ t) =
      .ok true (Block.Heading (levelOfLen L) [Inline.Value ⟨t⟩] none) [] :=
    orElse_ok hhead
  have hblock0 : block [] = .err false := rfl
  have hne2 : List.replicate L '=' ++ List.replicate k ' ' ++ t ≠ [] := by
    match L, hL1 with
    | L + 1, _ => simp [List.replicate_succ]
  have hdoc : document (List.replicate L '=' ++ List.replicate k ' ' ++ t) =
      .ok true [Block.Heading (levelOfLen L) [Inline.Value ⟨t⟩] none] [] :=
    many_ok_single hne2 hblock hblock0
  have htrim : trimStart (List.replicate L '=' ++ List.replicate k ' ' ++ t) =
      List.replicate L '=' ++ List.replicate k ' ' ++ t := by
    apply trimStart_eq
    match L, hL1 with
    | L + 1, _ => simp [List.replicate_succ, headNot]
  show (match document (trimStart (List.replicate L '=' ++ List.replicate k ' ' ++ t)) with
    | PR.ok _ blocks _ => some blocks
    | PR.err _ => none) =
    some [Block.Heading (levelOfLen L) [Inline.Value ⟨t⟩] none]
  rw [htrim, hdoc]

/-- C5 witness at `"== A"`. -/
theorem C5_witness :
    parse "== A" = some [Block.Heading HeadingLevel.Level1 [Inline.Value "A"] none] :=
  C5_heading_levels.1 2 1 "A".toList (by decide) (by decide) (by decide)
    (by decide) (by decide) (by decide)

/-- C6: formatting spans nest by recursion: whenever `inline` parses the
material after an opening `*` up to a closing `*`, `bold` wraps that
result in a `Bold` node; in particular the inline grammar parses
`"*_a_*"` to `Bold{Italic{Text("a")}}`. -/
theorem C6_nested_formatting :
    (∀ (i r : List Char) (b : Bool) (c : Inline),
      inline i = .ok b c ('*' :: r) →
      bold ('*' :: i) = .ok true (Inline.Bold c) r) ∧
    inline "*_a_*".toList =
      .ok true (Inline.Bold (Inline.Italic (Inline.Value "a"))) [] := by
  constructor
  · intro i r b c hin
    have hskip : skipMany (token ' ') ('*' :: i) = .ok false () ('*' :: i) := by
      have h := many_satisfy_run (fun x => x == ' ') [] ('*' :: i) (by simp) (by rfl)
      simp only [List.nil_append, List.isEmpty_nil, Bool.not_true] at h
      simp [skipMany, Parser.map, token, h]
    have htok1 : token '*' ('*' :: i) = .ok true '*' i := rfl
    have htok2 : token '*' ('*' :: r) = .ok true '*' r := rfl
    have hbetween : between (token '*') (token '*') inline ('*' :: i) =
        .ok true c r := by
      simp [between, Parser.map, Parser.andThen, htok1, htok2, hin]
    show boldF inline ('*' :: i) = _
    simp [boldF, Parser.map, Parser.andThen, hskip, hbetween]
  · rfl

/-- C6 witness at `"*_a_*"`. -/
theorem C6_witness :
    bold "*_a_*".toList =
      .ok true (Inline.Bold (Inline.Italic (Inline.Value "a"))) [] :=
  C6_nested_formatting.1 "_a_*".toList [] true (Inline.Italic (Inline.Value "a"))
    (by rfl)

/-- C7: in the inline choice the triple-backquote `inline_code`
alternative is attempted before `monospace`, so whenever `inline_code`
succeeds the combined alternative returns its result; in particular the
inline grammar parses a triple-backquote span to an `InlineCode` node,
never to a `Monospace` node. -/
theorem C7_inline_code_priority :
    (∀ (i r : List Char) (b : Bool) (c : Inline),
      inline_code i = .ok b c r →
      ((attempt inline_code).orElse monospace) i = .ok b c r) ∧
    inline "```npm```".toList =
      .ok true (Inline.InlineCode (Inline.Value "npm")) [] := by
  constructor
  · intro i r b c h
    exact orElse_ok (attempt_ok h)
  · rfl

/-- C7 witness at `"```npm```"`. -/
theorem C7_witness :
    ((attempt inline_code).orElse monospace) "```npm```".toList =
      .ok true (Inline.InlineCode (Inline.Value "npm")) [] :=
  C7_inline_code_priority.1 "```npm```".toList [] true
    (Inline.InlineCode (Inline.Value "npm")) (by rfl)

/-- C8: `"* [x] abc"` parses to an unordered list with one checked item
(`Check` is attempted before `Normal`); and in general for the accepted
checkbox characters, `checked` is true exactly when the character between
`[` and `]` is not a space. -/
theorem C8_checked_items :
    parse "* [x] abc" =
      some [Block.UnorderdList [ListItem.Check [Inline.Value "abc"] 1 true]] ∧
    parse "* [*] abc" =
      some [Block.UnorderdList [ListItem.Check [Inline.Value "abc"] 1 true]] ∧
    parse "* [ ] abc" =
      some [Block.UnorderdList [ListItem.Check [Inline.Value "abc"] 1 false]] ∧
    (∀ (ch : Char) (t : List Char),
      (ch == '*' || ch == 'x' || ch == ' ') = true → t ≠ [] →
      (∀ c ∈ t, valueChar c = true) → headNot rustIsWhitespace t = true →
      checked_list_item '*' ('*' :: ' ' :: '[' :: ch :: ']' :: ' ' :: t) =
        .ok true (ListItem.Check [Inline.Value ⟨t⟩] 1 (ch != ' ')) []) := by
  refine ⟨rfl, rfl, rfl, ?_⟩
  intro ch t hch hne ht hh
  have h1 : many1 (token '*') ('*' :: ' ' :: '[' :: ch :: ']' :: ' ' :: t) =
      .ok true ['*'] (' ' :: '[' :: ch :: ']' :: ' ' :: t) := by
    have := many1_token_run '*' 1 (' ' :: '[' :: ch :: ']' :: ' ' :: t)
      (by omega) (by rfl)
    simpa using this
  have h2 : spaces (' ' :: '[' :: ch :: ']' :: ' ' :: t) =
      .ok true () ('[' :: ch :: ']' :: ' ' :: t) := spaces_one (by rfl)
  have htokO : token '[' ('[' :: ch :: ']' :: ' ' :: t) =
      .ok true '[' (ch :: ']' :: ' ' :: t) := rfl
  have hsat : satisfy (fun c => c == '*' || c == 'x' || c == ' ')
      (ch :: ']' :: ' ' :: t) = .ok true ch (']' :: ' ' :: t) := by
    simp [satisfy, hch]
  have htokC : token ']' (']' :: ' ' :: t) = .ok true ']' (' ' :: t) := rfl
  have h3 : between (token '[') (token ']')
      (satisfy (fun c => c == '*' || c == 'x' || c == ' '))
      ('[' :: ch :: ']' :: ' ' :: t) = .ok true ch (' ' :: t) := by
    simp [between, Parser.map, Parser.andThen, htokO, hsat, htokC]
  have h4 : spaces (' ' :: t) = .ok true () t := spaces_one hh
  have hval : value t = .ok true (Inline.Value ⟨t⟩) [] := by
    have := value_run t [] hne ht (by rfl)
    simpa using this
  have hmany : many1 (attempt list_item_inline_) t =
      .ok true [Inline.Value ⟨t⟩] [] :=
    many1_of_single (attempt_ok (list_item_inline_of_value hval)) rfl
  show checked_list_item '*' _ = _
  simp [checked_list_item, Parser.map, Parser.andThen, h1, h2, h3, h4, hmany]

/-- C8 witness for the general part, at checkbox character `x` and text
`"ok"`. -/
theorem C8_witness :
    checked_list_item '*' ('*' :: ' ' :: '[' :: 'x' :: ']' :: ' ' :: "ok".toList) =
      .ok true (ListItem.Check [Inline.Value "ok"] 1 ('x' != ' ')) [] :=
  C8_checked_items.2.2.2 'x' "ok".toList (by decide) (by decide) (by decide)
    (by decide)

/-- C9: the attribute parsers map `"[foo=bar,poe=fuga]"` to the named
mapping with both pairs in insertion order and `"[foo,bar]"` to the
positional list in source order; trailing content before the closing `]`
(here a trailing comma) makes both parsers fail. -/
theorem C9_attribute_forms :
    named_atteributes "[foo=bar,poe=fuga]".toList =
      .ok true (Attributes.Named [("foo", "bar"), ("poe", "fuga")]) [] ∧
    position_attributes "[foo,bar]".toList =
      .ok true (Attributes.Position ["foo", "bar"]) [] ∧
    position_attributes "[foo,bar,]".toList = .err true ∧
    named_atteributes "[foo=bar,]".toList = .err false :=
  ⟨rfl, rfl, rfl, rfl⟩

/-- C10: a bracketed named-attribute list that repeats a key still parses,
and the repeated key is bound to the value of its last occurrence: for any
key `k` (not starting with whitespace) and values `v1`, `v2` over the
attribute character class, `[k=v1,k=v2]` yields the mapping `{k: v2}`. -/
theorem C10_duplicate_keys_last_wins :
    ∀ (k v1 v2 : List Char),
      (∀ c ∈ k, na_char c = true) → (∀ c ∈ v1, na_char c = true) →
      (∀ c ∈ v2, na_char c = true) → headNot rustIsWhitespace k = true →
      named_atteributes ('[' :: (k ++ ('=' :: (v1 ++ (',' :: (k ++ ('=' :: (v2 ++ [']'])))))))) =
        .ok true (Attributes.Named [(⟨k⟩, ⟨v2⟩)]) [] := by
  intro k v1 v2 hk hv1 hv2 hkw
  have hnvk1 : na_value (k ++ ('=' :: (v1 ++ (',' :: (k ++ ('=' :: (v2 ++ [']']))))))) =
      .ok (!k.isEmpty) k ('=' :: (v1 ++ (',' :: (k ++ ('=' :: (v2 ++ [']'])))))) := by
    have := many_satisfy_run na_char k
      ('=' :: (v1 ++ (',' :: (k ++ ('=' :: (v2 ++ [']'])))))) hk (by rfl)
    simpa [na_value] using this
  have hv1run : na_value (v1 ++ (',' :: (k ++ ('=' :: (v2 ++ [']']))))) =
      .ok (!v1.isEmpty) v1 (',' :: (k ++ ('=' :: (v2 ++ [']'])))) := by
    have := many_satisfy_run na_char v1
      (',' :: (k ++ ('=' :: (v2 ++ [']'])))) hv1 (by rfl)
    simpa [na_value] using this
  have hnvk2 : na_value (k ++ ('=' :: (v2 ++ [']']))) =
      .ok (!k.isEmpty) k ('=' :: (v2 ++ [']'])) := by
    have := many_satisfy_run na_char k ('=' :: (v2 ++ [']'])) hk (by rfl)
    simpa [na_value] using this
  have hv2run : na_value (v2 ++ [']']) = .ok (!v2.isEmpty) v2 [']'] := by
    have := many_satisfy_run na_char v2 [']'] hv2 (by rfl)
    simpa [na_value] using this
  have heq1 : token '=' ('=' :: (v1 ++ (',' :: (k ++ ('=' :: (v2 ++ [']'])))))) =
      .ok true '=' (v1 ++ (',' :: (k ++ ('=' :: (v2 ++ [']']))))) := rfl
  have heq2 : token '=' ('=' :: (v2 ++ [']'])) =
      .ok true '=' (v2 ++ [']']) := rfl
  have hexpr1 : na_expression (k ++ ('=' :: (v1 ++ (',' :: (k ++ ('=' :: (v2 ++ [']']))))))) =
      .ok true (k, v1) (',' :: (k ++ ('=' :: (v2 ++ [']'])))) := by
    simp [na_expression, Parser.map, Parser.andThen, hnvk1, heq1, hv1run]
  have hexpr2 : na_expression (k ++ ('=' :: (v2 ++ [']']))) =
      .ok true (k, v2) [']'] := by
    simp [na_expression, Parser.map, Parser.andThen, hnvk2, heq2, hv2run]
  have hcomma : token ',' (',' :: (k ++ ('=' :: (v2 ++ [']'])))) =
      .ok true ',' (k ++ ('=' :: (v2 ++ [']']))) := rfl
  have hspaces : spaces (k ++ ('=' :: (v2 ++ [']']))) =
      .ok false () (k ++ ('=' :: (v2 ++ [']']))) := by
    apply spaces_none
    cases k with
    | nil => rfl
    | cons c cs => simpa [headNot] using hkw
  have hewd1 : expression_with_delimiter
      (k ++ ('=' :: (v1 ++ (',' :: (k ++ ('=' :: (v2 ++ [']']))))))) =
      .ok true (k, v1) (k ++ ('=' :: (v2 ++ [']']))) := by
    simp [expression_with_delimiter, Parser.map, Parser.andThen, hexpr1, hcomma,
      hspaces]
  have hcomma2 : token ',' ([']'] : List Char) = .err false := rfl
  have hewd2 : expression_with_delimiter (k ++ ('=' :: (v2 ++ [']']))) =
      .err true := by
    simp [expression_with_delimiter, Parser.map, Parser.andThen, hexpr2, hcomma2]
  have hmany1 : many1 (attempt expression_with_delimiter)
      (k ++ ('=' :: (v1 ++ (',' :: (k ++ ('=' :: (v2 ++ [']']))))))) =
      .ok true [(k, v1)] (k ++ ('=' :: (v2 ++ [']']))) := by
    have hstop := many_of_err (attempt_err hewd2)
    simp [many1, Parser.map, Parser.andThen, attempt_ok hewd1, hstop]
  have hopen : token '['
      ('[' :: (k ++ ('=' :: (v1 ++ (',' :: (k ++ ('=' :: (v2 ++ [']'])))))))) =
      .ok true '[' (k ++ ('=' :: (v1 ++ (',' :: (k ++ ('=' :: (v2 ++ [']']))))))) := rfl
  have hclose : token ']' ([']'] : List Char) = .ok true ']' [] := rfl
  have hme : many_expressions
      ('[' :: (k ++ ('=' :: (v1 ++ (',' :: (k ++ ('=' :: (v2 ++ [']'])))))))) =
      .ok true (Attributes.Named [(⟨k⟩, ⟨v2⟩)]) [] := by
    simp [many_expressions, Parser.map, Parser.andThen, hopen, hmany1, hexpr2,
      hclose, hashInsert]
  exact orElse_ok (attempt_ok hme)

/-- C10 witness at `"[a=1,a=2]"`. -/
theorem C10_witness :
    named_atteributes "[a=1,a=2]".toList =
      .ok true (Attributes.Named [("a", "2")]) [] :=
  C10_duplicate_keys_last_wins ['a'] ['1'] ['2'] (by decide) (by decide)
    (by decide) (by decide)

end Asciidoc
